import Mathlib

/-!
Verification of the query/ordering engine of the library-management program
(`src/main.py`) against its specification.

Embedding conventions:
* `Book` mirrors the fields of the Python `Book` class.  `year` and
  `quantity` are Python ints, embedded as `Int`; `rating` is always a
  decimal with one fractional digit entered through validated input, so the
  float is embedded exactly as `Rat`; `availability` is `Bool`.
* `history` entries are `(action, details)` pairs; the wall-clock timestamp
  prepended by `_add_to_history` is not observable by any engine operation
  and is omitted.
* Python `str.lower()` followed by string comparison compares sequences of
  code points; this is embedded by `lowerStr` (code points, ASCII
  lowercasing as in the titles/genres the program manipulates) and the
  lexicographic comparison `strLe`.
* `ValueError` raised by the `Book` constructor is embedded as `none`.
* Database persistence (`_save_database` / `_load_database`) and console
  output are I/O side effects outside the engine and are not modelled.
-/

/-- Python `s.lower()` viewed as its sequence of code points
(`Book` titles and genres in this program are ASCII). -/
def lowerStr (s : String) : List Char := s.data.map Char.toLower

/-- Python lexicographic string comparison `s1 <= s2` on code-point
sequences: a proper prefix is smaller, otherwise the first differing
code point decides. -/
def strLe : List Char → List Char → Bool
  | [], _ => true
  | _ :: _, [] => false
  | a :: as, b :: bs => if a < b then true else if b < a then false else strLe as bs

/-- The `Book` class of `src/main.py` (lines 127-191): one catalog record. -/
structure Book where
  title : String
  author : String
  genre : String
  year : Int
  rating : Rat
  availability : Bool
  quantity : Int
  history : List (String × String)
deriving DecidableEq

/-- Placeholder record used only as the default of out-of-range list
indexing; every indexing in the development is guarded to be in range. -/
def dBook : Book :=
  { title := "", author := "", genre := "", year := 0, rating := 0,
    availability := false, quantity := 0, history := [] }

instance : Inhabited Book := ⟨dBook⟩

/-- `Book.__init__` (lines 130-154): validates `year` against
`[1500, current_year]`, `rating` against `[1, 5]` and `quantity ≥ 0`,
stores the `availability` ARGUMENT verbatim, and appends the creation
history entry.  A `ValueError` is embedded as `none`. -/
def mkBook (title author genre : String) (year : Int) (rating : Rat)
    (availability : Bool) (quantity : Int) (currentYear : Int) : Option Book :=
  if year < 1500 ∨ currentYear < year then none
  else if rating < 1 ∨ 5 < rating then none
  else if quantity < 0 then none
  else some
    { title := title, author := author, genre := genre, year := year,
      rating := rating, availability := availability, quantity := quantity,
      history := [("created", "Book added to library")] }

/-- `LendOperation.can_perform` (lines 100-101). -/
def lendCanPerform (b : Book) : Bool :=
  b.availability && decide (0 < b.quantity)

/-- `LendOperation.execute` (lines 103-109), the body of `Book.lend`:
on success decrements `quantity`, recomputes `availability` from the new
quantity, appends one history entry and returns `True`; otherwise returns
`False` leaving the book unchanged.  Returns `(result, new book state)`. -/
def lendExecute (b : Book) : Bool × Book :=
  if lendCanPerform b then
    (true,
      { b with
        quantity := b.quantity - 1,
        availability := decide (0 < b.quantity - 1),
        history := b.history ++ [("lend", "Book was lent out")] })
  else (false, b)

/-- `ReturnOperation.execute` (lines 117-121), the body of
`Book.return_book`: increments `quantity`, sets `availability` to `True`,
appends one history entry, always returns `True`. -/
def returnExecute (b : Book) : Bool × Book :=
  (true,
    { b with
      quantity := b.quantity + 1,
      availability := true,
      history := b.history ++ [("return", "Book was returned")] })

/-- `Book.update_quantity` (lines 159-165): sets the quantity, recomputes
`availability` as `new_quantity > 0` and appends one history entry.  The
`_save_database` call is persistence I/O, not modelled. -/
def updateQuantity (b : Book) (newQuantity : Int) : Book :=
  { b with
    quantity := newQuantity,
    availability := decide (0 < newQuantity),
    history := b.history ++
      [("quantity_update",
        "Quantity changed from " ++ toString b.quantity ++ " to " ++
          toString newQuantity)] }

/-- One pass of the inner `j`-loop of `BubbleRatingSort.sort`
(lines 213-215) limited to `k` adjacent comparisons: at each step the
current pair is swapped when the left rating is strictly smaller, so the
smaller record is carried rightwards. -/
def bpass : List Book → Nat → List Book
  | l, 0 => l
  | [], _ + 1 => []
  | [a], _ + 1 => [a]
  | a :: b :: rest, k + 1 =>
    if a.rating < b.rating then b :: bpass (a :: rest) k else a :: bpass (b :: rest) k

/-- The outer `i`-loop of `BubbleRatingSort.sort` (line 212): passes of
lengths `n-1, n-2, ..., 0`. -/
def bubbleAux : List Book → Nat → List Book
  | l, 0 => l
  | l, k + 1 => bubbleAux (bpass l k) k

/-- `BubbleRatingSort.sort` (lines 208-217): bubble sort, descending by
`rating`, operating on a copy of the input list. -/
def bubbleRatingSort (books : List Book) : List Book :=
  bubbleAux books books.length

/-- The `_merge` step shared by `MergeTitleSort._merge` (lines 232-246)
and `MergeYearSort._merge` (lines 261-275): repeatedly take the left head
while `le left_head right_head`, then append the leftover run.  The two
classes differ only in the comparison `le`. -/
def mergeBy (le : Book → Book → Bool) : List Book → List Book → List Book
  | [], r => r
  | l, [] => l
  | a :: l, b :: r =>
    if le a b then a :: mergeBy le l (b :: r) else b :: mergeBy le (a :: l) r
termination_by l r => l.length + r.length

/-- The `sort` method shared by `MergeTitleSort.sort` (lines 222-230) and
`MergeYearSort.sort` (lines 251-259): lists of length ≤ 1 are returned
as a copy, otherwise split at `len // 2`, sort both halves recursively
and merge. -/
def mergeSortBy (le : Book → Book → Bool) (books : List Book) : List Book :=
  if books.length ≤ 1 then books
  else
    mergeBy le (mergeSortBy le (books.take (books.length / 2)))
      (mergeSortBy le (books.drop (books.length / 2)))
termination_by books.length
decreasing_by
  · simp only [List.length_take]; omega
  · simp only [List.length_drop]; omega

/-- The comparison of `MergeTitleSort._merge` line 237:
`left.title.lower() <= right.title.lower()`. -/
def titleLeB (a b : Book) : Bool := strLe (lowerStr a.title) (lowerStr b.title)

/-- The comparison of `MergeYearSort._merge` line 266:
`left.year >= right.year`. -/
def yearGeB (a b : Book) : Bool := decide (b.year ≤ a.year)

/-- `MergeTitleSort.sort`: merge sort ascending by case-folded title. -/
def mergeTitleSort : List Book → List Book := mergeSortBy titleLeB

/-- `MergeYearSort.sort`: merge sort descending by year. -/
def mergeYearSort : List Book → List Book := mergeSortBy yearGeB

/-- `BookAnalytics.sort_books` (lines 556-565): returns `[]` on an empty
collection, otherwise applies the polymorphically selected strategy. -/
def sortBooks (strategy : List Book → List Book) (books : List Book) : List Book :=
  if books.isEmpty then [] else strategy books

/-- `G` of `practical_truth_table_search` line 400:
`book.genre.lower() == genre.lower()`. -/
def genreMatchB (genre : String) (b : Book) : Bool :=
  lowerStr b.genre == lowerStr genre

/-- `S` of `practical_truth_table_search` line 401:
`book.rating >= 4.0 and book.year >= 2000`. -/
def studentFriendlyB (b : Book) : Bool :=
  decide ((4 : Rat) ≤ b.rating) && decide ((2000 : Int) ≤ b.year)

/-- Line 404: `is_borrowable = book.availability and book.quantity > 0`. -/
def isBorrowableB (b : Book) : Bool :=
  b.availability && decide (0 < b.quantity)

/-- Line 405: `is_reference = not is_borrowable and book.quantity == 0`. -/
def isReferenceB (b : Book) : Bool :=
  !isBorrowableB b && decide (b.quantity = 0)

/-- `BookInventory.practical_truth_table_search` (lines 364-425): per
record, skip when the genre differs, when a student-friendly record is
required but `S` fails, or when the requested access mode's flag fails;
otherwise emit the record with its `(is_borrowable, is_reference)` flags. -/
def practicalTruthTableSearch (books : List Book) (genre : String)
    (forStudents : Bool) (borrowingType : String) : List (Book × Bool × Bool) :=
  match books with
  | [] => []
  | book :: rest =>
    let restResults := practicalTruthTableSearch rest genre forStudents borrowingType
    if !genreMatchB genre book then restResults
    else if forStudents && !studentFriendlyB book then restResults
    else if borrowingType == "borrow" && !isBorrowableB book then restResults
    else if borrowingType == "reference" && !isReferenceB book then restResults
    else (book, isBorrowableB book, isReferenceB book) :: restResults

/-- Python list indexing `books[i]` for the nonnegative indices used by
the search routines. -/
def bsGet (books : List Book) (i : Int) : Book := books.getD i.toNat dBook

/-- The leftward duplicate-run scan of `custom_binary_search`
(lines 460-464): from index `i` downward while the index is in range and
the rating matches exactly, collecting records that also meet the year
bound; returns the collected records and the final index `temp_left`. -/
def scanLeft (books : List Book) (tr : Rat) (ty : Int) (i : Int) : List Book × Int :=
  if h : 0 ≤ i ∧ (bsGet books i).rating = tr then
    let res := scanLeft books tr ty (i - 1)
    (if ty ≤ (bsGet books i).year then bsGet books i :: res.1 else res.1, res.2)
  else ([], i)
termination_by (i + 1).toNat
decreasing_by omega

/-- The rightward duplicate-run scan of `custom_binary_search`
(lines 467-471): from index `i` upward while `i ≤ right` and the rating
matches exactly; returns the collected records and the final index
`temp_right`. -/
def scanRight (books : List Book) (tr : Rat) (ty : Int) (right : Int) (i : Int) :
    List Book × Int :=
  if h : i ≤ right ∧ (bsGet books i).rating = tr then
    let res := scanRight books tr ty right (i + 1)
    (if ty ≤ (bsGet books i).year then bsGet books i :: res.1 else res.1, res.2)
  else ([], i)
termination_by (right + 1 - i).toNat
decreasing_by omega

theorem scanLeft_snd_le (books : List Book) (tr : Rat) (ty : Int) (i : Int) :
    (scanLeft books tr ty i).2 ≤ i := by
  induction i using scanLeft.induct books tr ty with
  | case1 i h ih =>
    rw [scanLeft, dif_pos h]
    dsimp only
    omega
  | case2 i h => rw [scanLeft, dif_neg h]

theorem scanRight_snd_ge (books : List Book) (tr : Rat) (ty : Int) (right i : Int) :
    i ≤ (scanRight books tr ty right i).2 := by
  induction i using scanRight.induct books tr ty right with
  | case1 i h ih =>
    rw [scanRight, dif_pos h]
    dsimp only
    omega
  | case2 i h => rw [scanRight, dif_neg h]

/-- `binary_search_with_criteria` (lines 438-482): recursive binary search
over the rating-sorted list on the inclusive window `[left, right]`.  On an
exact rating match at `mid` it emits `mid`'s record when the year bound
holds, expands the duplicate run by the two scans in append order, then
recurses on the windows beyond the scanned run. -/
def bswc (books : List Book) (tr : Rat) (ty : Int) (left right : Int) : List Book :=
  if left > right then []
  else
    let mid := (left + right).fdiv 2
    if (bsGet books mid).rating = tr then
      let lres := scanLeft books tr ty (mid - 1)
      let rres := scanRight books tr ty right (mid + 1)
      (if ty ≤ (bsGet books mid).year then [bsGet books mid] else []) ++
        lres.1 ++ rres.1 ++
        bswc books tr ty left lres.2 ++ bswc books tr ty rres.2 right
    else if (bsGet books mid).rating < tr then
      bswc books tr ty (mid + 1) right
    else
      bswc books tr ty left (mid - 1)
termination_by (right + 1 - left).toNat
decreasing_by
  · have h1 := scanLeft_snd_le books tr ty ((left + right).fdiv 2 - 1)
    have h2 : left ≤ (left + right).fdiv 2 ∧ (left + right).fdiv 2 ≤ right := by
      rw [Int.fdiv_eq_ediv _ (by norm_num)]; omega
    omega
  · have h1 := scanRight_snd_ge books tr ty right ((left + right).fdiv 2 + 1)
    have h2 : left ≤ (left + right).fdiv 2 ∧ (left + right).fdiv 2 ≤ right := by
      rw [Int.fdiv_eq_ediv _ (by norm_num)]; omega
    omega
  · have h2 : left ≤ (left + right).fdiv 2 ∧ (left + right).fdiv 2 ≤ right := by
      rw [Int.fdiv_eq_ediv _ (by norm_num)]; omega
    omega
  · have h2 : left ≤ (left + right).fdiv 2 ∧ (left + right).fdiv 2 ≤ right := by
      rw [Int.fdiv_eq_ediv _ (by norm_num)]; omega
    omega

/-- The ascending-rating preprocessing order of `custom_binary_search`
line 435: `sorted(self.books, key=lambda x: x.rating)`. -/
def ratingLe (a b : Book) : Prop := a.rating ≤ b.rating

instance : DecidableRel ratingLe :=
  fun a b => inferInstanceAs (Decidable (a.rating ≤ b.rating))

instance : IsTotal Book ratingLe := ⟨fun a b => le_total a.rating b.rating⟩

instance : IsTrans Book ratingLe := ⟨fun _ _ _ => le_trans⟩

/-- `BookInventory.custom_binary_search` (lines 427-489): empty collection
returns `[]`; otherwise the collection is sorted ascending by rating
(Python's `sorted` is a stable comparison sort, embedded by the stable
`List.insertionSort`) and the recursive window search runs on
`[0, n - 1]`. -/
def customBinarySearch (books : List Book) (tr : Rat) (ty : Int) : List Book :=
  if books.isEmpty then []
  else
    bswc (List.insertionSort ratingLe books) tr ty 0
      ((List.insertionSort ratingLe books).length - 1)

/-- `BookInventory.recursive_search_by_title` (lines 491-497): recursive
linear scan from `index`, case-insensitive exact title match, first match
wins, `None` past the end. -/
def recursiveSearchByTitle (books : List Book) (title : String) (index : Nat) :
    Option Book :=
  if h : books.length ≤ index then none
  else if lowerStr (books.getD index dBook).title == lowerStr title then
    some (books.getD index dBook)
  else recursiveSearchByTitle books title (index + 1)
termination_by books.length - index

/-- `BookInventory.find_book_by_title` (lines 499-500). -/
def findBookByTitle (books : List Book) (title : String) : Option Book :=
  recursiveSearchByTitle books title 0

/-- The record predicate the multi-criteria search must realize:
exact rating match and inclusive minimum year. -/
def pBook (tr : Rat) (ty : Int) (b : Book) : Bool :=
  decide (b.rating = tr) && decide (ty ≤ b.year)

/-! ### Order facts about the code-point comparison `strLe` -/

theorem strLe_refl : ∀ a, strLe a a = true
  | [] => rfl
  | c :: cs => by rw [strLe]; simp [lt_irrefl, strLe_refl cs]

theorem strLe_total : ∀ a b, strLe a b = true ∨ strLe b a = true
  | [], _ => Or.inl rfl
  | _ :: _, [] => Or.inr rfl
  | a :: as, b :: bs => by
    rw [strLe, strLe]
    rcases lt_trichotomy a b with h | h | h
    · left; simp [h]
    · subst h
      simpa [lt_irrefl] using strLe_total as bs
    · right; simp [h]

theorem strLe_trans : ∀ a b c, strLe a b = true → strLe b c = true → strLe a c = true
  | [], _, c => fun _ _ => by cases c <;> rfl
  | a :: as, [], _ => fun h _ => by rw [strLe] at h; exact absurd h (by simp)
  | _ :: _, _ :: _, [] => fun _ h => by rw [strLe] at h; exact absurd h (by simp)
  | a :: as, b :: bs, c :: cs => fun h1 h2 => by
    rw [strLe] at h1 h2 ⊢
    by_cases hab : a < b
    · by_cases hbc : b < c
      · simp [lt_trans hab hbc]
      · by_cases hcb : c < b
        · rw [if_neg hbc, if_pos hcb] at h2; exact absurd h2 (by simp)
        · have : b = c := le_antisymm (le_of_not_lt hcb) (le_of_not_lt hbc)
          subst this; simp [hab]
    · rw [if_neg hab] at h1
      by_cases hba : b < a
      · rw [if_pos hba] at h1; exact absurd h1 (by simp)
      · have : a = b := le_antisymm (le_of_not_lt hba) (le_of_not_lt hab)
        subst this
        rw [if_neg (lt_irrefl a)] at h1
        by_cases hac : a < c
        · simp [hac]
        · by_cases hca : c < a
          · rw [if_neg hac, if_pos hca] at h2; exact absurd h2 (by simp)
          · have : a = c := le_antisymm (le_of_not_lt hca) (le_of_not_lt hac)
            subst this
            rw [if_neg (lt_irrefl a)] at h2 ⊢
            rw [if_neg (lt_irrefl a)] at h2 ⊢
            exact strLe_trans as bs cs h1 h2

theorem strLe_of_not (a b : List Char) (h : strLe a b = false) : strLe b a = true :=
  (strLe_total a b).resolve_left (by simp [h])

/-! ### Bubble sort (`BubbleRatingSort`) -/

theorem bpass_length : ∀ (l : List Book) (k : Nat), (bpass l k).length = l.length
  | l, 0 => by rw [bpass]
  | [], _ + 1 => rfl
  | [_], _ + 1 => rfl
  | a :: b :: rest, k + 1 => by
    rw [bpass]
    by_cases h : a.rating < b.rating
    · simp [h, bpass_length (a :: rest) k]
    · simp [h, bpass_length (b :: rest) k]

theorem bpass_perm : ∀ (l : List Book) (k : Nat), (bpass l k).Perm l
  | l, 0 => by rw [bpass]
  | [], _ + 1 => List.Perm.refl []
  | [a], _ + 1 => List.Perm.refl [a]
  | a :: b :: rest, k + 1 => by
    rw [bpass]
    by_cases h : a.rating < b.rating
    · rw [if_pos h]
      exact ((bpass_perm (a :: rest) k).cons b).trans (List.Perm.swap a b rest)
    · rw [if_neg h]
      exact (bpass_perm (b :: rest) k).cons a

theorem bpass_drop : ∀ (l : List Book) (k : Nat), (bpass l k).drop (k + 1) = l.drop (k + 1)
  | _, 0 => by rw [bpass]
  | [], _ + 1 => rfl
  | [_], _ + 1 => by simp [bpass]
  | a :: b :: rest, k + 1 => by
    rw [bpass]
    by_cases h : a.rating < b.rating
    · rw [if_pos h]
      show (b :: bpass (a :: rest) k).drop (k + 2) = _
      rw [List.drop_succ_cons, bpass_drop (a :: rest) k]
      rfl
    · rw [if_neg h]
      show (a :: bpass (b :: rest) k).drop (k + 2) = _
      rw [List.drop_succ_cons, bpass_drop (b :: rest) k]
      rfl

theorem bpass_take_perm :
    ∀ (l : List Book) (k : Nat), ((bpass l k).take (k + 1)).Perm (l.take (k + 1))
  | l, 0 => by rw [bpass]
  | [], _ + 1 => List.Perm.refl _
  | [a], _ + 1 => List.Perm.refl _
  | a :: b :: rest, k + 1 => by
    rw [bpass]
    by_cases h : a.rating < b.rating
    · rw [if_pos h]
      show ((b :: bpass (a :: rest) k).take (k + 2)).Perm ((a :: b :: rest).take (k + 2))
      rw [List.take_succ_cons, List.take_succ_cons, List.take_succ_cons]
      have ih := bpass_take_perm (a :: rest) k
      rw [List.take_succ_cons] at ih
      exact (ih.cons b).trans (List.Perm.swap a b _)
    · rw [if_neg h]
      show ((a :: bpass (b :: rest) k).take (k + 2)).Perm ((a :: b :: rest).take (k + 2))
      rw [List.take_succ_cons, List.take_succ_cons]
      exact (bpass_take_perm (b :: rest) k).cons a

theorem getD_mem_take :
    ∀ (l : List Book) (k : Nat), k < l.length → l.getD k dBook ∈ l.take (k + 1)
  | c :: _, 0, _ => by simp
  | c :: t, k + 1, h => by
    have := getD_mem_take t k (by simpa using h)
    simpa using Or.inr this

theorem bpass_min :
    ∀ (l : List Book) (k : Nat), k < l.length →
      ∀ x ∈ (bpass l k).take (k + 1), ((bpass l k).getD k dBook).rating ≤ x.rating
  | l, 0, h => by
    rw [bpass]
    match l, h with
    | c :: t, _ => simp
  | [], _ + 1, h => by simp at h
  | [a], k + 1, h => by simp at h
  | a :: b :: rest, k + 1, h => by
    have hk : k < (a :: rest).length := by simpa using Nat.lt_of_succ_lt_succ h
    have hk' : k < (b :: rest).length := by simpa using Nat.lt_of_succ_lt_succ h
    rw [bpass]
    by_cases hab : a.rating < b.rating
    · rw [if_pos hab]
      intro x hx
      rw [List.take_succ_cons] at hx
      rw [List.getD_cons_succ]
      have ih := bpass_min (a :: rest) k hk
      have ha : a ∈ (bpass (a :: rest) k).take (k + 1) := by
        have : a ∈ (a :: rest).take (k + 1) := by
          rw [List.take_succ_cons]; exact List.mem_cons_self a _
        exact ((bpass_take_perm (a :: rest) k).mem_iff).2 this
      rcases List.mem_cons.1 hx with hx | hx
      · subst hx
        exact le_trans (ih a ha) (le_of_lt hab)
      · exact ih x hx
    · rw [if_neg hab]
      intro x hx
      rw [List.take_succ_cons] at hx
      rw [List.getD_cons_succ]
      have ih := bpass_min (b :: rest) k hk'
      have hb : b ∈ (bpass (b :: rest) k).take (k + 1) := by
        have : b ∈ (b :: rest).take (k + 1) := by
          rw [List.take_succ_cons]; exact List.mem_cons_self b _
        exact ((bpass_take_perm (b :: rest) k).mem_iff).2 this
      rcases List.mem_cons.1 hx with hx | hx
      · subst hx
        exact le_trans (ih b hb) (le_of_not_lt hab)
      · exact ih x hx

theorem bubbleAux_perm : ∀ (k : Nat) (l : List Book), (bubbleAux l k).Perm l
  | 0, l => by rw [bubbleAux]
  | k + 1, l => by
    rw [bubbleAux]
    exact (bubbleAux_perm k (bpass l k)).trans (bpass_perm l k)

theorem bubbleAux_sorted :
    ∀ (k : Nat) (l : List Book), k ≤ l.length →
      List.Sorted (fun a b => b.rating ≤ a.rating) (l.drop k) →
      (∀ x ∈ l.take k, ∀ y ∈ l.drop k, y.rating ≤ x.rating) →
      List.Sorted (fun a b => b.rating ≤ a.rating) (bubbleAux l k)
  | 0, l, _, hs, _ => by rw [bubbleAux]; simpa using hs
  | k + 1, l, hlen, hs, hsplit => by
    rw [bubbleAux]
    have hk : k < l.length := hlen
    have hlen' : (bpass l k).length = l.length := bpass_length l k
    have hk2 : k < (bpass l k).length := by omega
    have hdrop : (bpass l k).drop (k + 1) = l.drop (k + 1) := bpass_drop l k
    have htp : ((bpass l k).take (k + 1)).Perm (l.take (k + 1)) := bpass_take_perm l k
    have hmin := bpass_min l k hk
    have hmem : (bpass l k).getD k dBook ∈ (bpass l k).take (k + 1) :=
      getD_mem_take (bpass l k) k hk2
    have hcons : (bpass l k).drop k = (bpass l k).getD k dBook :: (bpass l k).drop (k + 1) := by
      rw [List.drop_eq_getElem_cons hk2, List.getD_eq_getElem _ dBook hk2]
    apply bubbleAux_sorted k (bpass l k) (by omega)
    · rw [hcons, hdrop, List.sorted_cons]
      refine ⟨fun y hy => ?_, hs⟩
      exact hsplit _ (htp.mem_iff.1 hmem) y hy
    · intro x hx y hy
      have hx' : x ∈ (bpass l k).take (k + 1) := by
        rw [List.take_succ]
        exact List.mem_append_left _ hx
      rw [hcons] at hy
      rcases List.mem_cons.1 hy with hy | hy
      · subst hy
        exact hmin x hx'
      · rw [hdrop] at hy
        exact hsplit x (htp.mem_iff.1 hx') y hy

theorem bubbleRatingSort_perm (l : List Book) : (bubbleRatingSort l).Perm l :=
  bubbleAux_perm l.length l

theorem bubbleRatingSort_sorted (l : List Book) :
    List.Sorted (fun a b => b.rating ≤ a.rating) (bubbleRatingSort l) := by
  apply bubbleAux_sorted l.length l le_rfl
  · rw [List.drop_length]; exact List.sorted_nil
  · intro x _ y hy
    rw [List.drop_length] at hy
    exact absurd hy (List.not_mem_nil y)

theorem bpass_filter (k : Rat) :
    ∀ (l : List Book) (m : Nat),
      (bpass l m).filter (fun b => decide (b.rating = k)) =
        l.filter (fun b => decide (b.rating = k))
  | l, 0 => by rw [bpass]
  | [], _ + 1 => rfl
  | [_], _ + 1 => by rw [bpass]
  | a :: b :: rest, m + 1 => by
    rw [bpass]
    by_cases hab : a.rating < b.rating
    · rw [if_pos hab]
      have ih := bpass_filter k (a :: rest) m
      by_cases hb : b.rating = k
      · have ha : ¬ a.rating = k := fun h2 => absurd hab (by rw [h2, hb]; exact lt_irrefl k)
        simp [List.filter_cons, hb, ha, ih]
      · simp [List.filter_cons, hb, ih]
    · rw [if_neg hab]
      have ih := bpass_filter k (b :: rest) m
      simp only [List.filter_cons, ih]

theorem bubbleAux_filter (k : Rat) :
    ∀ (m : Nat) (l : List Book),
      (bubbleAux l m).filter (fun b => decide (b.rating = k)) =
        l.filter (fun b => decide (b.rating = k))
  | 0, l => by rw [bubbleAux]
  | m + 1, l => by
    rw [bubbleAux, bubbleAux_filter k m (bpass l m), bpass_filter k l m]

theorem bubbleRatingSort_filter (l : List Book) (k : Rat) :
    (bubbleRatingSort l).filter (fun b => decide (b.rating = k)) =
      l.filter (fun b => decide (b.rating = k)) :=
  bubbleAux_filter k l.length l

/-! ### Merge sorts (`MergeTitleSort`, `MergeYearSort`) -/

theorem mergeBy_perm (le : Book → Book → Bool) :
    ∀ (l r : List Book), (mergeBy le l r).Perm (l ++ r)
  | [], r => by simp [mergeBy]
  | a :: l, [] => by simp [mergeBy]
  | a :: l, b :: r => by
    rw [mergeBy]
    by_cases h : le a b = true
    · rw [if_pos h]
      exact (mergeBy_perm le l (b :: r)).cons a
    · rw [if_neg h]
      exact ((mergeBy_perm le (a :: l) r).cons b).trans List.perm_middle.symm
  termination_by l r => l.length + r.length

theorem mergeBy_sorted (le : Book → Book → Bool)
    (Htot : ∀ a b, le a b = true ∨ le b a = true)
    (Htrans : ∀ a b c, le a b = true → le b c = true → le a c = true) :
    ∀ (l r : List Book), List.Sorted (fun a b => le a b = true) l →
      List.Sorted (fun a b => le a b = true) r →
      List.Sorted (fun a b => le a b = true) (mergeBy le l r)
  | [], r => fun _ hr => by simpa [mergeBy] using hr
  | a :: l, [] => fun hl _ => by simpa [mergeBy] using hl
  | a :: l, b :: r => fun hl hr => by
    rw [mergeBy]
    by_cases h : le a b = true
    · rw [if_pos h, List.sorted_cons]
      refine ⟨fun x hx => ?_,
        mergeBy_sorted le Htot Htrans l (b :: r) (List.sorted_cons.1 hl).2 hr⟩
      have hx' : x ∈ l ++ b :: r := (mergeBy_perm le l (b :: r)).subset hx
      rcases List.mem_append.1 hx' with hx' | hx'
      · exact (List.sorted_cons.1 hl).1 x hx'
      · rcases List.mem_cons.1 hx' with rfl | hx'
        · exact h
        · exact Htrans a b x h ((List.sorted_cons.1 hr).1 x hx')
    · rw [if_neg h, List.sorted_cons]
      have hba : le b a = true := (Htot a b).resolve_left h
      refine ⟨fun x hx => ?_,
        mergeBy_sorted le Htot Htrans (a :: l) r hl (List.sorted_cons.1 hr).2⟩
      have hx' : x ∈ (a :: l) ++ r := (mergeBy_perm le (a :: l) r).subset hx
      rcases List.mem_append.1 hx' with hx' | hx'
      · rcases List.mem_cons.1 hx' with rfl | hx'
        · exact hba
        · exact Htrans b a x hba ((List.sorted_cons.1 hl).1 x hx')
      · exact (List.sorted_cons.1 hr).1 x hx'
  termination_by l r => l.length + r.length

theorem mergeBy_filter (le : Book → Book → Bool)
    (Htrans : ∀ a b c, le a b = true → le b c = true → le a c = true)
    (p : Book → Bool) (Hp : ∀ x y, p x = true → p y = true → le x y = true) :
    ∀ (l r : List Book), List.Sorted (fun a b => le a b = true) l →
      (mergeBy le l r).filter p = l.filter p ++ r.filter p
  | [], r => fun _ => by simp [mergeBy]
  | a :: l, [] => fun _ => by simp [mergeBy]
  | a :: l, b :: r => fun hl => by
    rw [mergeBy]
    by_cases h : le a b = true
    · rw [if_pos h]
      have ih := mergeBy_filter le Htrans p Hp l (b :: r) (List.sorted_cons.1 hl).2
      by_cases hpa : p a = true
      · simp [List.filter_cons, hpa, ih]
      · simp [List.filter_cons, hpa, ih]
    · rw [if_neg h]
      have ih := mergeBy_filter le Htrans p Hp (a :: l) r hl
      by_cases hpb : p b = true
      · have hnone : (a :: l).filter p = [] := by
          rw [List.filter_eq_nil_iff]
          intro x hx hpx
          rcases List.mem_cons.1 hx with rfl | hx'
          · exact absurd (Hp x b hpx hpb) h
          · have hax : le a x = true := (List.sorted_cons.1 hl).1 x hx'
            exact absurd (Htrans a x b hax (Hp x b hpx hpb)) h
        simp [List.filter_cons, hpb, ih, hnone]
      · simp [List.filter_cons, hpb, ih]
  termination_by l r => l.length + r.length

theorem mergeSortBy_perm (le : Book → Book → Bool) (books : List Book) :
    (mergeSortBy le books).Perm books := by
  induction books using mergeSortBy.induct le with
  | case1 books h => rw [mergeSortBy, if_pos h]
  | case2 books h ih1 ih2 =>
    rw [mergeSortBy, if_neg h]
    exact (mergeBy_perm le _ _).trans
      ((ih1.append ih2).trans (by rw [List.take_append_drop]))

theorem mergeSortBy_sorted (le : Book → Book → Bool)
    (Htot : ∀ a b, le a b = true ∨ le b a = true)
    (Htrans : ∀ a b c, le a b = true → le b c = true → le a c = true)
    (books : List Book) :
    List.Sorted (fun a b => le a b = true) (mergeSortBy le books) := by
  induction books using mergeSortBy.induct le with
  | case1 books h =>
    rw [mergeSortBy, if_pos h]
    rcases books with _ | ⟨a, _ | ⟨b, t⟩⟩
    · exact List.sorted_nil
    · exact List.sorted_singleton a
    · simp at h
  | case2 books h ih1 ih2 =>
    rw [mergeSortBy, if_neg h]
    exact mergeBy_sorted le Htot Htrans _ _ ih1 ih2

theorem mergeSortBy_filter (le : Book → Book → Bool)
    (Htot : ∀ a b, le a b = true ∨ le b a = true)
    (Htrans : ∀ a b c, le a b = true → le b c = true → le a c = true)
    (p : Book → Bool) (Hp : ∀ x y, p x = true → p y = true → le x y = true)
    (books : List Book) :
    (mergeSortBy le books).filter p = books.filter p := by
  induction books using mergeSortBy.induct le with
  | case1 books h => rw [mergeSortBy, if_pos h]
  | case2 books h ih1 ih2 =>
    rw [mergeSortBy, if_neg h]
    rw [mergeBy_filter le Htrans p Hp _ _ (mergeSortBy_sorted le Htot Htrans _),
      ih1, ih2, ← List.filter_append, List.take_append_drop]

theorem titleLeB_total (a b : Book) : titleLeB a b = true ∨ titleLeB b a = true :=
  strLe_total (lowerStr a.title) (lowerStr b.title)

theorem titleLeB_trans (a b c : Book) (h1 : titleLeB a b = true) (h2 : titleLeB b c = true) :
    titleLeB a c = true :=
  strLe_trans (lowerStr a.title) (lowerStr b.title) (lowerStr c.title) h1 h2

theorem yearGeB_total (a b : Book) : yearGeB a b = true ∨ yearGeB b a = true := by
  simp only [yearGeB, decide_eq_true_eq]
  omega

theorem yearGeB_trans (a b c : Book) (h1 : yearGeB a b = true) (h2 : yearGeB b c = true) :
    yearGeB a c = true := by
  simp only [yearGeB, decide_eq_true_eq] at h1 h2 ⊢
  omega

/-! ### Predicate filter (`practical_truth_table_search`) -/

/-- The inclusion condition realized by the skip chain of
`practical_truth_table_search`, for an arbitrary `borrowing_type` string. -/
def pttsCond (genre : String) (forStudents : Bool) (borrowingType : String)
    (b : Book) : Bool :=
  genreMatchB genre b && (!forStudents || studentFriendlyB b) &&
    !(borrowingType == "borrow" && !isBorrowableB b) &&
    !(borrowingType == "reference" && !isReferenceB b)

theorem practicalTruthTableSearch_eq (genre : String) (fs : Bool) (mode : String) :
    ∀ books, practicalTruthTableSearch books genre fs mode =
      (books.filter (pttsCond genre fs mode)).map
        (fun b => (b, isBorrowableB b, isReferenceB b))
  | [] => rfl
  | book :: rest => by
    rw [practicalTruthTableSearch]
    have ih := practicalTruthTableSearch_eq genre fs mode rest
    cases fs <;> cases hG : genreMatchB genre book <;>
      cases hS : studentFriendlyB book <;> cases hB : isBorrowableB book <;>
      cases hR : isReferenceB book <;> cases hm1 : (mode == "borrow") <;>
      cases hm2 : (mode == "reference") <;>
      simp [List.filter_cons, pttsCond, hG, hS, hB, hR, hm1, hm2, ih]

/-! ### Title lookup (`recursive_search_by_title`) -/

theorem recursiveSearchByTitle_eq (books : List Book) (title : String) (idx : Nat) :
    recursiveSearchByTitle books title idx =
      (books.drop idx).find? (fun b => lowerStr b.title == lowerStr title) := by
  induction idx using recursiveSearchByTitle.induct books title with
  | case1 idx h =>
    rw [recursiveSearchByTitle, dif_pos h, List.drop_eq_nil_of_le h]
    rfl
  | case2 idx h hmatch =>
    rw [recursiveSearchByTitle, dif_neg h, if_pos hmatch]
    have hlt : idx < books.length := by omega
    rw [List.drop_eq_getElem_cons hlt]
    rw [List.getD_eq_getElem _ dBook hlt] at hmatch ⊢
    exact (List.find?_cons_of_pos
      (p := fun (b : Book) => lowerStr b.title == lowerStr title) _ hmatch).symm
  | case3 idx h hmatch ih =>
    rw [recursiveSearchByTitle, dif_neg h, if_neg hmatch]
    have hlt : idx < books.length := by omega
    rw [ih, List.drop_eq_getElem_cons hlt]
    rw [List.getD_eq_getElem _ dBook hlt] at hmatch
    exact (List.find?_cons_of_neg
      (p := fun (b : Book) => lowerStr b.title == lowerStr title) _ hmatch).symm

/-! ### Multi-criteria binary search (`custom_binary_search`) -/

/-- The records of the inclusive index window `[a, b]` of a list. -/
def intSeg (books : List Book) (a b : Int) : List Book :=
  (List.range (b + 1 - a).toNat).map (fun k : Nat => bsGet books (a + (k : Int)))

theorem intSeg_of_lt (books : List Book) {a b : Int} (h : b < a) :
    intSeg books a b = [] := by
  unfold intSeg
  have h0 : (b + 1 - a).toNat = 0 := by omega
  rw [h0]
  rfl

theorem intSeg_cons (books : List Book) {a b : Int} (h : a ≤ b) :
    intSeg books a b = bsGet books a :: intSeg books (a + 1) b := by
  unfold intSeg
  have h1 : (b + 1 - a).toNat = (b + 1 - (a + 1)).toNat + 1 := by omega
  rw [h1, List.range_succ_eq_map, List.map_cons, List.map_map]
  congr 1
  · norm_num
  · apply List.map_congr_left
    intro k _
    show bsGet books (a + ((k + 1 : Nat) : Int)) = bsGet books (a + 1 + (k : Int))
    congr 1
    push_cast
    ring

theorem intSeg_single (books : List Book) (a : Int) :
    intSeg books a a = [bsGet books a] := by
  rw [intSeg_cons books le_rfl, intSeg_of_lt books (by omega)]

theorem intSeg_append_aux (books : List Book) :
    ∀ (n : Nat) (a b c : Int), (b + 1 - a).toNat = n → a ≤ b + 1 → b ≤ c →
      intSeg books a c = intSeg books a b ++ intSeg books (b + 1) c
  | 0, a, b, c, hn, h1, _ => by
    have ha : a = b + 1 := by omega
    subst ha
    have e1 : intSeg books (b + 1) b = [] := intSeg_of_lt books (by omega)
    rw [e1, List.nil_append]
  | n + 1, a, b, c, hn, h1, h2 => by
    have ha : a ≤ b := by omega
    rw [intSeg_cons books (le_trans ha h2), intSeg_cons books ha, List.cons_append]
    congr 1
    exact intSeg_append_aux books n (a + 1) b c (by omega) (by omega) h2

theorem intSeg_append (books : List Book) (a b c : Int) (h1 : a ≤ b + 1) (h2 : b ≤ c) :
    intSeg books a c = intSeg books a b ++ intSeg books (b + 1) c :=
  intSeg_append_aux books (b + 1 - a).toNat a b c rfl h1 h2

theorem mem_intSeg (books : List Book) {a b : Int} {x : Book} :
    x ∈ intSeg books a b ↔ ∃ j : Int, a ≤ j ∧ j ≤ b ∧ x = bsGet books j := by
  unfold intSeg
  simp only [List.mem_map, List.mem_range]
  constructor
  · rintro ⟨k, hk, rfl⟩
    exact ⟨a + (k : Int), by omega, by omega, rfl⟩
  · rintro ⟨j, hj1, hj2, rfl⟩
    refine ⟨(j - a).toNat, by omega, ?_⟩
    congr 1
    omega

theorem intSeg_full (books : List Book) :
    intSeg books 0 ((books.length : Int) - 1) = books := by
  unfold intSeg
  have h1 : ((books.length : Int) - 1 + 1 - 0).toNat = books.length := by omega
  rw [h1]
  apply List.ext_getElem
  · simp
  · intro i hi1 hi2
    rw [List.getElem_map, List.getElem_range]
    unfold bsGet
    have h2 : ((0 : Int) + (i : Int)).toNat = i := by omega
    rw [h2, List.getD_eq_getElem _ dBook hi2]

theorem scanLeft_spec (books : List Book) (tr : Rat) (ty : Int) (i : Int) :
    (∀ j : Int, (scanLeft books tr ty i).2 < j → j ≤ i →
        0 ≤ j ∧ (bsGet books j).rating = tr) ∧
      ((scanLeft books tr ty i).2 < 0 ∨
        (bsGet books (scanLeft books tr ty i).2).rating ≠ tr) ∧
      (scanLeft books tr ty i).1.Perm
        ((intSeg books ((scanLeft books tr ty i).2 + 1) i).filter (pBook tr ty)) := by
  induction i using scanLeft.induct books tr ty with
  | case1 i h ih =>
    obtain ⟨ih1, ih2, ih3⟩ := ih
    have hfin := scanLeft_snd_le books tr ty (i - 1)
    rw [scanLeft, dif_pos h]
    dsimp only
    refine ⟨?_, ih2, ?_⟩
    · intro j hj1 hj2
      by_cases hji : j ≤ i - 1
      · exact ih1 j hj1 hji
      · have hj : j = i := by omega
        subst hj
        exact h
    · have hseg : intSeg books ((scanLeft books tr ty (i - 1)).2 + 1) i =
          intSeg books ((scanLeft books tr ty (i - 1)).2 + 1) (i - 1) ++ [bsGet books i] := by
        rw [intSeg_append books _ (i - 1) i (by omega) (by omega)]
        have e : i - 1 + 1 = i := by ring
        rw [e, intSeg_single]
      rw [hseg, List.filter_append]
      have hpc : pBook tr ty (bsGet books i) = decide (ty ≤ (bsGet books i).year) := by
        unfold pBook
        rw [h.2]
        simp
      by_cases hy : ty ≤ (bsGet books i).year
      · rw [if_pos hy]
        have e2 : [bsGet books i].filter (pBook tr ty) = [bsGet books i] := by
          rw [List.filter_cons, hpc]
          simp [hy]
        rw [e2]
        exact (ih3.cons _).trans (List.perm_append_singleton _ _).symm
      · rw [if_neg hy]
        have e2 : [bsGet books i].filter (pBook tr ty) = [] := by
          rw [List.filter_cons, hpc]
          simp [hy]
        rw [e2, List.append_nil]
        exact ih3
  | case2 i h =>
    rw [scanLeft, dif_neg h]
    dsimp only
    refine ⟨fun j hj1 hj2 => by omega, ?_, ?_⟩
    · by_cases h0 : 0 ≤ i
      · exact Or.inr fun heq => h ⟨h0, heq⟩
      · exact Or.inl (by omega)
    · rw [intSeg_of_lt books (by omega)]
      rfl

theorem scanRight_spec (books : List Book) (tr : Rat) (ty : Int) (right : Int) (i : Int) :
    i ≤ right + 1 →
      (∀ j : Int, i ≤ j → j < (scanRight books tr ty right i).2 →
          j ≤ right ∧ (bsGet books j).rating = tr) ∧
        (scanRight books tr ty right i).2 ≤ right + 1 ∧
        (right < (scanRight books tr ty right i).2 ∨
          (bsGet books (scanRight books tr ty right i).2).rating ≠ tr) ∧
        (scanRight books tr ty right i).1.Perm
          ((intSeg books i ((scanRight books tr ty right i).2 - 1)).filter (pBook tr ty)) := by
  induction i using scanRight.induct books tr ty right with
  | case1 i h ih =>
    intro _
    obtain ⟨ih1, ih2, ih3, ih4⟩ := ih (by omega)
    have hfin := scanRight_snd_ge books tr ty right (i + 1)
    rw [scanRight, dif_pos h]
    dsimp only
    refine ⟨?_, ih2, ih3, ?_⟩
    · intro j hj1 hj2
      by_cases hji : i + 1 ≤ j
      · exact ih1 j hji hj2
      · have hj : j = i := by omega
        subst hj
        exact h
    · have hseg : intSeg books i ((scanRight books tr ty right (i + 1)).2 - 1) =
          bsGet books i ::
            intSeg books (i + 1) ((scanRight books tr ty right (i + 1)).2 - 1) :=
        intSeg_cons books (by omega)
      rw [hseg, List.filter_cons]
      have hpc : pBook tr ty (bsGet books i) = decide (ty ≤ (bsGet books i).year) := by
        unfold pBook
        rw [h.2]
        simp
      by_cases hy : ty ≤ (bsGet books i).year
      · have hcond : pBook tr ty (bsGet books i) = true := by rw [hpc]; simpa using hy
        rw [if_pos hy, if_pos hcond]
        exact ih4.cons _
      · have hcond : ¬ pBook tr ty (bsGet books i) = true := by rw [hpc]; simpa using hy
        rw [if_neg hy, if_neg hcond]
        exact ih4
  | case2 i h =>
    intro hstart
    rw [scanRight, dif_neg h]
    dsimp only
    refine ⟨fun j hj1 hj2 => by omega, hstart, ?_, ?_⟩
    · by_cases hr : i ≤ right
      · exact Or.inr fun heq => h ⟨hr, heq⟩
      · exact Or.inl (by omega)
    · rw [intSeg_of_lt books (by omega)]
      rfl

theorem bswc_all_lt (books : List Book) (tr : Rat) (ty : Int) (left right : Int) :
    (∀ j : Int, left ≤ j → j ≤ right → (bsGet books j).rating < tr) →
      bswc books tr ty left right = [] := by
  induction left, right using bswc.induct books tr ty with
  | case1 left right h =>
    intro _
    rw [bswc, if_pos h]
  | case2 left right h mid heq lres rres lih rih =>
    intro H
    exfalso
    have hmid : left ≤ (left + right).fdiv 2 ∧ (left + right).fdiv 2 ≤ right := by
      rw [Int.fdiv_eq_ediv _ (by norm_num)]; omega
    exact absurd heq (ne_of_lt (H _ hmid.1 hmid.2))
  | case3 left right h mid hne hlt ih =>
    intro H
    have hmid : left ≤ (left + right).fdiv 2 ∧ (left + right).fdiv 2 ≤ right := by
      rw [Int.fdiv_eq_ediv _ (by norm_num)]; omega
    rw [bswc, if_neg h]
    dsimp only
    rw [if_neg hne, if_pos hlt]
    exact ih fun j hj1 hj2 => H j (by omega) hj2
  | case4 left right h mid hne hnlt ih =>
    intro H
    have hmid : left ≤ (left + right).fdiv 2 ∧ (left + right).fdiv 2 ≤ right := by
      rw [Int.fdiv_eq_ediv _ (by norm_num)]; omega
    rw [bswc, if_neg h]
    dsimp only
    rw [if_neg hne, if_neg hnlt]
    exact ih fun j hj1 hj2 => H j hj1 (by omega)

theorem bswc_all_gt (books : List Book) (tr : Rat) (ty : Int) (left right : Int) :
    (∀ j : Int, left ≤ j → j ≤ right → tr < (bsGet books j).rating) →
      bswc books tr ty left right = [] := by
  induction left, right using bswc.induct books tr ty with
  | case1 left right h =>
    intro _
    rw [bswc, if_pos h]
  | case2 left right h mid heq lres rres lih rih =>
    intro H
    exfalso
    have hmid : left ≤ (left + right).fdiv 2 ∧ (left + right).fdiv 2 ≤ right := by
      rw [Int.fdiv_eq_ediv _ (by norm_num)]; omega
    exact absurd heq (ne_of_gt (H _ hmid.1 hmid.2))
  | case3 left right h mid hne hlt ih =>
    intro H
    exfalso
    have hmid : left ≤ (left + right).fdiv 2 ∧ (left + right).fdiv 2 ≤ right := by
      rw [Int.fdiv_eq_ediv _ (by norm_num)]; omega
    exact absurd hlt (lt_asymm (H _ hmid.1 hmid.2))
  | case4 left right h mid hne hnlt ih =>
    intro H
    have hmid : left ≤ (left + right).fdiv 2 ∧ (left + right).fdiv 2 ≤ right := by
      rw [Int.fdiv_eq_ediv _ (by norm_num)]; omega
    rw [bswc, if_neg h]
    dsimp only
    rw [if_neg hne, if_neg hnlt]
    exact ih fun j hj1 hj2 => H j hj1 (by omega)

theorem bswc_perm (books : List Book) (tr : Rat) (ty : Int)
    (Hmono : ∀ i j : Int, 0 ≤ i → i ≤ j → j < (books.length : Int) →
      (bsGet books i).rating ≤ (bsGet books j).rating)
    (left right : Int) :
    0 ≤ left → right < (books.length : Int) →
    (left = 0 ∨ (bsGet books (left - 1)).rating < tr) →
    (bswc books tr ty left right).Perm
      ((intSeg books left right).filter (pBook tr ty)) := by
  induction left, right using bswc.induct books tr ty with
  | case1 left right h =>
    intro _ _ _
    rw [bswc, if_pos h, intSeg_of_lt books (by omega)]
    rfl
  | case2 left right h mid heq lres rres lih rih =>
    intro h0 hlen hinv
    have hmval : mid = (left + right).fdiv 2 := rfl
    have hmid : left ≤ mid ∧ mid ≤ right := by
      rw [hmval, Int.fdiv_eq_ediv _ (by norm_num)]; omega
    obtain ⟨SL1, SL2, SL3⟩ := scanLeft_spec books tr ty (mid - 1)
    obtain ⟨SR1, SR2, SR3, SR4⟩ := scanRight_spec books tr ty right (mid + 1) (by omega)
    have hf1le : (scanLeft books tr ty (mid - 1)).2 ≤ mid - 1 :=
      scanLeft_snd_le books tr ty (mid - 1)
    have hf2ge : mid + 1 ≤ (scanRight books tr ty right (mid + 1)).2 :=
      scanRight_snd_ge books tr ty right (mid + 1)
    set fin1 := (scanLeft books tr ty (mid - 1)).2 with hfin1
    set fin2 := (scanRight books tr ty right (mid + 1)).2 with hfin2
    have hf1ge : left - 1 ≤ fin1 := by
      by_contra hc
      push_neg at hc
      have hrun := SL1 (left - 1) (by omega) (by omega)
      rcases hinv with h0' | hlt'
      · have h01 := hrun.1
        omega
      · exact absurd hrun.2 (ne_of_lt hlt')
    have hrec1 : bswc books tr ty left fin1 = [] := by
      apply bswc_all_lt
      intro j hj1 hj2
      have h0j : 0 ≤ j := by omega
      have h0f : 0 ≤ fin1 := by omega
      have hne : (bsGet books fin1).rating ≠ tr := by
        rcases SL2 with h' | h'
        · exact absurd h' (by omega)
        · exact h'
      have hle1 := Hmono j fin1 h0j hj2 (by omega)
      have hle2 := Hmono fin1 mid h0f (by omega) (by omega)
      rw [heq] at hle2
      exact lt_of_le_of_lt hle1 (lt_of_le_of_ne hle2 hne)
    have hrec2 : bswc books tr ty fin2 right = [] := by
      apply bswc_all_gt
      intro j hj1 hj2
      have hf2r : fin2 ≤ right := by omega
      have hne : (bsGet books fin2).rating ≠ tr := by
        rcases SR3 with h' | h'
        · exact absurd h' (by omega)
        · exact h'
      have hge1 := Hmono mid fin2 (by omega) (by omega) (by omega)
      have hge2 := Hmono fin2 j (by omega) hj1 (by omega)
      rw [heq] at hge1
      exact lt_of_lt_of_le (lt_of_le_of_ne hge1 (Ne.symm hne)) hge2
    rw [bswc, if_neg h]
    dsimp only
    rw [if_pos heq, ← hmval, ← hfin1, ← hfin2, hrec1, hrec2,
      List.append_nil, List.append_nil]
    have hsA : intSeg books left right =
        intSeg books left fin1 ++ intSeg books (fin1 + 1) right :=
      intSeg_append books left fin1 right (by omega) (by omega)
    have hsB : intSeg books (fin1 + 1) right =
        intSeg books (fin1 + 1) (mid - 1) ++ intSeg books mid right := by
      have hx := intSeg_append books (fin1 + 1) (mid - 1) right (by omega) (by omega)
      have e : mid - 1 + 1 = mid := by ring
      rwa [e] at hx
    have hsC : intSeg books mid right =
        intSeg books mid mid ++ intSeg books (mid + 1) right :=
      intSeg_append books mid mid right (by omega) (by omega)
    have hsD : intSeg books (mid + 1) right =
        intSeg books (mid + 1) (fin2 - 1) ++ intSeg books fin2 right := by
      have hx := intSeg_append books (mid + 1) (fin2 - 1) right (by omega) (by omega)
      have e : fin2 - 1 + 1 = fin2 := by ring
      rwa [e] at hx
    rw [hsA, hsB, hsC, hsD, intSeg_single, List.filter_append, List.filter_append,
      List.filter_append, List.filter_append]
    have hempL : (intSeg books left fin1).filter (pBook tr ty) = [] := by
      rw [List.filter_eq_nil_iff]
      intro x hx hpx
      obtain ⟨j, hj1, hj2, rfl⟩ := (mem_intSeg books).1 hx
      have h0j : 0 ≤ j := by omega
      have h0f : 0 ≤ fin1 := by omega
      have hne : (bsGet books fin1).rating ≠ tr := by
        rcases SL2 with h' | h'
        · exact absurd h' (by omega)
        · exact h'
      have hle1 := Hmono j fin1 h0j hj2 (by omega)
      have hle2 := Hmono fin1 mid h0f (by omega) (by omega)
      rw [heq] at hle2
      have hjlt : (bsGet books j).rating < tr :=
        lt_of_le_of_lt hle1 (lt_of_le_of_ne hle2 hne)
      unfold pBook at hpx
      rw [Bool.and_eq_true, decide_eq_true_eq, decide_eq_true_eq] at hpx
      exact absurd hpx.1 (ne_of_lt hjlt)
    have hempR : (intSeg books fin2 right).filter (pBook tr ty) = [] := by
      rw [List.filter_eq_nil_iff]
      intro x hx hpx
      obtain ⟨j, hj1, hj2, rfl⟩ := (mem_intSeg books).1 hx
      have hf2r : fin2 ≤ right := by omega
      have hne : (bsGet books fin2).rating ≠ tr := by
        rcases SR3 with h' | h'
        · exact absurd h' (by omega)
        · exact h'
      have hge1 := Hmono mid fin2 (by omega) (by omega) (by omega)
      have hge2 := Hmono fin2 j (by omega) hj1 (by omega)
      rw [heq] at hge1
      have hjgt : tr < (bsGet books j).rating :=
        lt_of_lt_of_le (lt_of_le_of_ne hge1 (Ne.symm hne)) hge2
      unfold pBook at hpx
      rw [Bool.and_eq_true, decide_eq_true_eq, decide_eq_true_eq] at hpx
      exact absurd hpx.1 (ne_of_gt hjgt)
    rw [hempL, hempR, List.nil_append, List.append_nil]
    have hpc : pBook tr ty (bsGet books mid) = decide (ty ≤ (bsGet books mid).year) := by
      unfold pBook
      rw [heq]
      simp
    have hmidf : [bsGet books mid].filter (pBook tr ty) =
        if ty ≤ (bsGet books mid).year then [bsGet books mid] else [] := by
      rw [List.filter_cons, hpc]
      by_cases hy : ty ≤ (bsGet books mid).year
      · simp [hy]
      · simp [hy]
    rw [hmidf]
    refine (((List.Perm.refl _).append SL3).append SR4).trans ?_
    refine (List.perm_append_comm.append (List.Perm.refl _)).trans ?_
    rw [List.append_assoc]
  | case3 left right h mid hne hlt ih =>
    intro h0 hlen hinv
    have hmval : mid = (left + right).fdiv 2 := rfl
    have hmid : left ≤ mid ∧ mid ≤ right := by
      rw [hmval, Int.fdiv_eq_ediv _ (by norm_num)]; omega
    rw [bswc, if_neg h]
    dsimp only
    rw [if_neg hne, if_pos hlt, ← hmval]
    have ihres := ih (by omega) hlen (Or.inr (by
      have e : mid + 1 - 1 = mid := by ring
      rw [e]
      exact hlt))
    have hsplit := intSeg_append books left mid right (by omega) (by omega)
    rw [hsplit, List.filter_append]
    have hemp : (intSeg books left mid).filter (pBook tr ty) = [] := by
      rw [List.filter_eq_nil_iff]
      intro x hx hpx
      obtain ⟨j, hj1, hj2, rfl⟩ := (mem_intSeg books).1 hx
      have hle := Hmono j mid (by omega) hj2 (by omega)
      have hjlt : (bsGet books j).rating < tr := lt_of_le_of_lt hle hlt
      unfold pBook at hpx
      rw [Bool.and_eq_true, decide_eq_true_eq, decide_eq_true_eq] at hpx
      exact absurd hpx.1 (ne_of_lt hjlt)
    rw [hemp, List.nil_append]
    exact ihres
  | case4 left right h mid hne hnlt ih =>
    intro h0 hlen hinv
    have hmval : mid = (left + right).fdiv 2 := rfl
    have hmid : left ≤ mid ∧ mid ≤ right := by
      rw [hmval, Int.fdiv_eq_ediv _ (by norm_num)]; omega
    have hgt : tr < (bsGet books mid).rating :=
      lt_of_le_of_ne (le_of_not_lt hnlt) (Ne.symm hne)
    rw [bswc, if_neg h]
    dsimp only
    rw [if_neg hne, if_neg hnlt, ← hmval]
    have ihres := ih h0 (by omega) hinv
    have hsplit : intSeg books left right =
        intSeg books left (mid - 1) ++ intSeg books mid right := by
      have hx := intSeg_append books left (mid - 1) right (by omega) (by omega)
      have e : mid - 1 + 1 = mid := by ring
      rwa [e] at hx
    rw [hsplit, List.filter_append]
    have hemp : (intSeg books mid right).filter (pBook tr ty) = [] := by
      rw [List.filter_eq_nil_iff]
      intro x hx hpx
      obtain ⟨j, hj1, hj2, rfl⟩ := (mem_intSeg books).1 hx
      have hge := Hmono mid j (by omega) hj1 (by omega)
      have hjgt : tr < (bsGet books j).rating := lt_of_lt_of_le hgt hge
      unfold pBook at hpx
      rw [Bool.and_eq_true, decide_eq_true_eq, decide_eq_true_eq] at hpx
      exact absurd hpx.1 (ne_of_gt hjgt)
    rw [hemp, List.append_nil]
    exact ihres

instance : IsRefl Book ratingLe := ⟨fun a => le_refl a.rating⟩

theorem sortedByRating_mono (books : List Book) :
    ∀ i j : Int, 0 ≤ i → i ≤ j → j < ((List.insertionSort ratingLe books).length : Int) →
      (bsGet (List.insertionSort ratingLe books) i).rating ≤
        (bsGet (List.insertionSort ratingLe books) j).rating := by
  intro i j h0 hij hj
  have hsorted : List.Sorted ratingLe (List.insertionSort ratingLe books) :=
    List.sorted_insertionSort ratingLe books
  have hi : i.toNat < (List.insertionSort ratingLe books).length := by omega
  have hj' : j.toNat < (List.insertionSort ratingLe books).length := by omega
  unfold bsGet
  rw [List.getD_eq_getElem _ dBook hi, List.getD_eq_getElem _ dBook hj']
  exact hsorted.rel_get_of_le (a := ⟨i.toNat, hi⟩) (b := ⟨j.toNat, hj'⟩)
    (by rw [Fin.mk_le_mk]; omega)

theorem customBinarySearch_perm (books : List Book) (tr : Rat) (ty : Int) :
    (customBinarySearch books tr ty).Perm (books.filter (pBook tr ty)) := by
  unfold customBinarySearch
  by_cases hemp : books.isEmpty
  · rw [if_pos hemp]
    rw [List.isEmpty_iff] at hemp
    subst hemp
    rfl
  · rw [if_neg hemp]
    have hlen : 0 < books.length := by
      rcases books with _ | _
      · simp at hemp
      · simp
    have hlen2 : (List.insertionSort ratingLe books).length = books.length := by
      exact (List.perm_insertionSort ratingLe books).length_eq
    have hmain := bswc_perm (List.insertionSort ratingLe books) tr ty
      (sortedByRating_mono books) 0 (((List.insertionSort ratingLe books).length : Int) - 1)
      le_rfl (by omega) (Or.inl rfl)
    refine hmain.trans ?_
    rw [intSeg_full]
    exact (List.perm_insertionSort ratingLe books).filter _

/-! ### Concrete records used by the specification's worked examples -/

/-- Record 1 of the §8 search-completeness example: rating 3.0, year 2020. -/
def exB1 : Book :=
  { title := "B1", author := "a1", genre := "Fiction", year := 2020, rating := 3.0,
    availability := true, quantity := 1, history := [] }

/-- Record 2 of the §8 search-completeness example: rating 4.5, year 1999. -/
def exB2 : Book :=
  { title := "B2", author := "a2", genre := "Fiction", year := 1999, rating := 4.5,
    availability := true, quantity := 1, history := [] }

/-- Record 3 of the §8 search-completeness example: rating 4.5, year 2010. -/
def exB3 : Book :=
  { title := "B3", author := "a3", genre := "Fiction", year := 2010, rating := 4.5,
    availability := true, quantity := 1, history := [] }

/-- Record 4 of the §8 search-completeness example: rating 4.5, year 2021. -/
def exB4 : Book :=
  { title := "B4", author := "a4", genre := "Fiction", year := 2021, rating := 4.5,
    availability := true, quantity := 1, history := [] }

/-- Record 5 of the §8 search-completeness example: rating 5.0, year 2015. -/
def exB5 : Book :=
  { title := "B5", author := "a5", genre := "Fiction", year := 2015, rating := 5.0,
    availability := true, quantity := 1, history := [] }

/-- The §8 search-completeness collection: ratings `[3.0, 4.5, 4.5, 4.5, 5.0]`,
years `[2020, 1999, 2010, 2021, 2015]`. -/
def exBooks : List Book := [exB1, exB2, exB3, exB4, exB5]

/-- First case variant of the §8 lookup example, title `"dune"`. -/
def duneA : Book :=
  { title := "dune", author := "h1", genre := "Fiction", year := 1965, rating := 4.8,
    availability := true, quantity := 1, history := [] }

/-- Second case variant of the §8 lookup example, title `"DUNE"`. -/
def duneB : Book :=
  { title := "DUNE", author := "h2", genre := "Fiction", year := 1966, rating := 4.1,
    availability := true, quantity := 2, history := [] }

/-- The §8 filter-correctness record: genre Science, rating 4.2, year 2005,
quantity 0. -/
def sciBook : Book :=
  { title := "S1", author := "s1", genre := "Science", year := 2005, rating := 4.2,
    availability := false, quantity := 0, history := [] }

/-- A consistent lendable record (2 copies available). -/
def goodBook : Book :=
  { title := "G1", author := "g1", genre := "Fiction", year := 2001, rating := 4.0,
    availability := true, quantity := 2, history := [] }

/-- A consistent record with no copies available. -/
def emptyBook : Book :=
  { title := "E1", author := "e1", genre := "Fiction", year := 2001, rating := 4.0,
    availability := false, quantity := 0, history := [] }

/-- The record produced by a successful `Book.__init__` call with
`availability=True` and `quantity=0`: the stored availability flag
contradicts `quantity > 0`. -/
def inconsistentBook : Book :=
  { title := "T", author := "A", genre := "G", year := 2000, rating := 4,
    availability := true, quantity := 0,
    history := [("created", "Book added to library")] }

theorem mkBook_inconsistent :
    mkBook "T" "A" "G" 2000 4 true 0 2024 = some inconsistentBook := by
  unfold mkBook
  rw [if_neg (by norm_num), if_neg (by norm_num), if_neg (by norm_num)]
  rfl

/-! ### Claim theorems -/

/-- C4: each of the three sort strategies (bubble sort by rating, merge
sort by title, merge sort by year) returns a permutation of its input:
the same multiset of records, none created, dropped, or duplicated. -/
theorem C4_sorts_permutation (l : List Book) :
    (bubbleRatingSort l).Perm l ∧ (mergeTitleSort l).Perm l ∧
      (mergeYearSort l).Perm l :=
  ⟨bubbleRatingSort_perm l, mergeSortBy_perm titleLeB l, mergeSortBy_perm yearGeB l⟩

/-- C5: the bubble rating sort output is non-increasing in `rating`, the
merge title sort output is non-decreasing in the case-folded title, and
the merge year sort output is non-increasing in `year`. -/
theorem C5_sorts_ordering (l : List Book) :
    List.Sorted (fun a b => b.rating ≤ a.rating) (bubbleRatingSort l) ∧
      List.Sorted (fun a b => strLe (lowerStr a.title) (lowerStr b.title) = true)
        (mergeTitleSort l) ∧
      List.Sorted (fun a b => b.year ≤ a.year) (mergeYearSort l) := by
  refine ⟨bubbleRatingSort_sorted l, ?_, ?_⟩
  · exact mergeSortBy_sorted titleLeB titleLeB_total titleLeB_trans l
  · exact (mergeSortBy_sorted yearGeB yearGeB_total yearGeB_trans l).imp
      (fun hab => by simpa [yearGeB] using hab)

/-- C6: records with equal sort keys keep their relative input order:
for every key value, the subsequence of records carrying that key is
unchanged by the title merge sort (case-folded title key), the year merge
sort (year key), and the bubble rating sort (rating key, since adjacent
swaps occur only on strict comparison). -/
theorem C6_sorts_stability :
    (∀ (l : List Book) (k : List Char),
        (mergeTitleSort l).filter (fun b => lowerStr b.title == k) =
          l.filter (fun b => lowerStr b.title == k)) ∧
      (∀ (l : List Book) (k : Int),
        (mergeYearSort l).filter (fun b => decide (b.year = k)) =
          l.filter (fun b => decide (b.year = k))) ∧
      (∀ (l : List Book) (k : Rat),
        (bubbleRatingSort l).filter (fun b => decide (b.rating = k)) =
          l.filter (fun b => decide (b.rating = k))) := by
  refine ⟨fun l k => ?_, fun l k => ?_, fun l k => bubbleRatingSort_filter l k⟩
  · apply mergeSortBy_filter titleLeB titleLeB_total titleLeB_trans
    intro x y hx hy
    have hx' : lowerStr x.title = k := by simpa using hx
    have hy' : lowerStr y.title = k := by simpa using hy
    unfold titleLeB
    rw [hx', hy']
    exact strLe_refl k
  · apply mergeSortBy_filter yearGeB yearGeB_total yearGeB_trans
    intro x y hx hy
    have hx' : x.year = k := by simpa using hx
    have hy' : y.year = k := by simpa using hy
    unfold yearGeB
    rw [hx', hy']
    simp

/-- C8: the empty collection is a valid input to every engine operation:
the three sort strategies, the analytics sort wrapper, the binary
multi-criteria search and the predicate filter all return an empty result
and the title lookup returns `none`. -/
theorem C8_empty_collection :
    bubbleRatingSort [] = [] ∧ mergeTitleSort [] = [] ∧ mergeYearSort [] = [] ∧
      (∀ f : List Book → List Book, sortBooks f [] = []) ∧
      (∀ (tr : Rat) (ty : Int), customBinarySearch [] tr ty = []) ∧
      (∀ (g : String) (fs : Bool) (m : String),
        practicalTruthTableSearch [] g fs m = []) ∧
      (∀ t : String, recursiveSearchByTitle [] t 0 = none) := by
  refine ⟨rfl, ?_, ?_, fun f => rfl, fun tr ty => rfl, fun g fs m => rfl, fun t => ?_⟩
  · simp [mergeTitleSort, mergeSortBy]
  · simp [mergeYearSort, mergeSortBy]
  · simp [recursiveSearchByTitle]

/-- C9: the sorts and the predicate filter are pure with respect to their
input: they return a fresh sequence whose records are the input records
verbatim (a permutation for the sorts; an order-preserving subsequence
for the filter), with no record field modified. -/
theorem C9_purity :
    (∀ l : List Book, (bubbleRatingSort l).Perm l ∧ ∀ b ∈ bubbleRatingSort l, b ∈ l) ∧
      (∀ l : List Book, (mergeTitleSort l).Perm l ∧ ∀ b ∈ mergeTitleSort l, b ∈ l) ∧
      (∀ l : List Book, (mergeYearSort l).Perm l ∧ ∀ b ∈ mergeYearSort l, b ∈ l) ∧
      (∀ (books : List Book) (g : String) (fs : Bool) (m : String),
        ((practicalTruthTableSearch books g fs m).map (fun x => x.1)).Sublist books) := by
  refine ⟨fun l => ⟨bubbleRatingSort_perm l, fun b hb => (bubbleRatingSort_perm l).subset hb⟩,
    fun l => ⟨mergeSortBy_perm titleLeB l, fun b hb => (mergeSortBy_perm titleLeB l).subset hb⟩,
    fun l => ⟨mergeSortBy_perm yearGeB l, fun b hb => (mergeSortBy_perm yearGeB l).subset hb⟩,
    fun books g fs m => ?_⟩
  rw [practicalTruthTableSearch_eq, List.map_map]
  have e : ((fun x : Book × Bool × Bool => x.1) ∘
      fun b => (b, isBorrowableB b, isReferenceB b)) = fun b : Book => b := rfl
  rw [e, List.map_id']
  exact List.filter_sublist books

/-- C1: for every collection and every `target_rating` and `target_year`,
`custom_binary_search` returns exactly the records satisfying
`rating == target_rating` and `year >= target_year` — each such record
once, none violating either condition (a permutation of the filtered
collection); the result is empty when no record's rating equals the
target exactly; on the §8 example collection (ratings
`[3.0, 4.5, 4.5, 4.5, 5.0]`, years `[2020, 1999, 2010, 2021, 2015]`),
searching `(4.5, 2005)` yields exactly the two records with years 2010
and 2021, and `(4.5, 2022)` yields nothing. -/
theorem C1_multi_criteria_search :
    (∀ (books : List Book) (tr : Rat) (ty : Int),
        (customBinarySearch books tr ty).Perm (books.filter (pBook tr ty))) ∧
      (∀ (books : List Book) (tr : Rat) (ty : Int),
        (∀ b ∈ books, b.rating ≠ tr) → customBinarySearch books tr ty = []) ∧
      (customBinarySearch exBooks 4.5 2005).Perm [exB3, exB4] ∧
      customBinarySearch exBooks 4.5 2022 = [] := by
  refine ⟨customBinarySearch_perm, ?_, ?_, ?_⟩
  · intro books tr ty H
    have hfil : books.filter (pBook tr ty) = [] := by
      rw [List.filter_eq_nil_iff]
      intro b hb hpb
      unfold pBook at hpb
      rw [Bool.and_eq_true, decide_eq_true_eq, decide_eq_true_eq] at hpb
      exact H b hb hpb.1
    have h2 := customBinarySearch_perm books tr ty
    rw [hfil] at h2
    exact h2.eq_nil
  · have hp1 : pBook (4.5 : Rat) 2005 exB1 = false := by unfold pBook exB1; norm_num
    have hp2 : pBook (4.5 : Rat) 2005 exB2 = false := by unfold pBook exB2; norm_num
    have hp3 : pBook (4.5 : Rat) 2005 exB3 = true := by unfold pBook exB3; norm_num
    have hp4 : pBook (4.5 : Rat) 2005 exB4 = true := by unfold pBook exB4; norm_num
    have hp5 : pBook (4.5 : Rat) 2005 exB5 = false := by unfold pBook exB5; norm_num
    have hfil : exBooks.filter (pBook (4.5 : Rat) 2005) = [exB3, exB4] := by
      simp [exBooks, List.filter_cons, hp1, hp2, hp3, hp4, hp5]
    have h2 := customBinarySearch_perm exBooks (4.5 : Rat) 2005
    rwa [hfil] at h2
  · have hp1 : pBook (4.5 : Rat) 2022 exB1 = false := by unfold pBook exB1; norm_num
    have hp2 : pBook (4.5 : Rat) 2022 exB2 = false := by unfold pBook exB2; norm_num
    have hp3 : pBook (4.5 : Rat) 2022 exB3 = false := by unfold pBook exB3; norm_num
    have hp4 : pBook (4.5 : Rat) 2022 exB4 = false := by unfold pBook exB4; norm_num
    have hp5 : pBook (4.5 : Rat) 2022 exB5 = false := by unfold pBook exB5; norm_num
    have hfil : exBooks.filter (pBook (4.5 : Rat) 2022) = [] := by
      simp [exBooks, List.filter_cons, hp1, hp2, hp3, hp4, hp5]
    have h2 := customBinarySearch_perm exBooks (4.5 : Rat) 2022
    rw [hfil] at h2
    exact h2.eq_nil

/-- C1 witness: the empty-on-no-exact-rating conjunct applied to the
example collection at a rating (2.0) carried by no record. -/
theorem C1_witness : customBinarySearch exBooks 2 2005 = [] := by
  apply C1_multi_criteria_search.2.1 exBooks 2 2005
  intro b hb
  simp only [exBooks, List.mem_cons, List.not_mem_nil, or_false] at hb
  rcases hb with rfl | rfl | rfl | rfl | rfl <;>
    norm_num [exB1, exB2, exB3, exB4, exB5]

/-- C2 counterexample: `Book.__init__` stores the `availability` argument
verbatim, so a creation with `availability=True, quantity=0` succeeds and
yields a record violating `availability == (quantity > 0)`. -/
theorem C2_counterexample :
    mkBook "T" "A" "G" 2000 4 true 0 2024 = some inconsistentBook ∧
      inconsistentBook.availability = true ∧ inconsistentBook.quantity = 0 ∧
      inconsistentBook.availability ≠ decide (0 < inconsistentBook.quantity) :=
  ⟨mkBook_inconsistent, rfl, rfl, by decide⟩

/-- C2 (amended): `update_quantity` always re-establishes
`availability == (quantity > 0)`; `return_book` re-establishes it for
every record with the data model's `quantity ≥ 0`; `lend` preserves it
whenever it already holds; creation stores the caller's `availability`
and `quantity` verbatim, so the invariant holds after creation only when
the caller passes `availability` equal to `quantity > 0`. -/
theorem C2_amended :
    (∀ (b : Book) (q : Int),
        (updateQuantity b q).availability = decide (0 < (updateQuantity b q).quantity)) ∧
      (∀ b : Book, 0 ≤ b.quantity →
        (returnExecute b).2.availability = decide (0 < (returnExecute b).2.quantity)) ∧
      (∀ b : Book, b.availability = decide (0 < b.quantity) →
        (lendExecute b).2.availability = decide (0 < (lendExecute b).2.quantity)) ∧
      (∀ (t a g : String) (y : Int) (r : Rat) (av : Bool) (q cy : Int) (b : Book),
        mkBook t a g y r av q cy = some b → b.availability = av ∧ b.quantity = q) := by
  refine ⟨fun b q => rfl, ?_, ?_, ?_⟩
  · intro b hq
    have h1 : (0 : Int) < b.quantity + 1 := by omega
    simp [returnExecute, h1]
  · intro b hb
    unfold lendExecute
    by_cases hc : lendCanPerform b = true
    · rw [if_pos hc]
    · rw [if_neg hc]
      exact hb
  · intro t a g y r av q cy b hmk
    unfold mkBook at hmk
    split_ifs at hmk
    all_goals cases hmk
    exact ⟨rfl, rfl⟩

/-- C2 witness: the amended conjuncts applied to a concrete in-invariant
record and to the concrete constructor call of the counterexample. -/
theorem C2_witness :
    ((returnExecute goodBook).2.availability =
        decide (0 < (returnExecute goodBook).2.quantity)) ∧
      ((lendExecute goodBook).2.availability =
        decide (0 < (lendExecute goodBook).2.quantity)) ∧
      inconsistentBook.availability = true ∧ inconsistentBook.quantity = 0 :=
  ⟨C2_amended.2.1 goodBook (by norm_num [goodBook]),
    C2_amended.2.2.1 goodBook rfl,
    C2_amended.2.2.2 "T" "A" "G" 2000 4 true 0 2024 inconsistentBook mkBook_inconsistent⟩

/-- C3: the predicate filter returns, in input order, exactly the records
whose genre matches case-insensitively, that are student-friendly when
required, and that satisfy the access-mode condition (`borrow` requires
`is_borrowable`, `reference` requires `is_reference`, `any` imposes
nothing), each tagged with its `is_borrowable`/`is_reference` flags; a
record with non-matching genre is excluded regardless of every other
parameter. -/
theorem C3_predicate_filter :
    (∀ (books : List Book) (genre : String) (fs : Bool),
        practicalTruthTableSearch books genre fs "borrow" =
          (books.filter (fun b =>
              genreMatchB genre b && (!fs || studentFriendlyB b) &&
                isBorrowableB b)).map
            (fun b => (b, isBorrowableB b, isReferenceB b))) ∧
      (∀ (books : List Book) (genre : String) (fs : Bool),
        practicalTruthTableSearch books genre fs "reference" =
          (books.filter (fun b =>
              genreMatchB genre b && (!fs || studentFriendlyB b) &&
                isReferenceB b)).map
            (fun b => (b, isBorrowableB b, isReferenceB b))) ∧
      (∀ (books : List Book) (genre : String) (fs : Bool),
        practicalTruthTableSearch books genre fs "any" =
          (books.filter (fun b =>
              genreMatchB genre b && (!fs || studentFriendlyB b))).map
            (fun b => (b, isBorrowableB b, isReferenceB b))) ∧
      (∀ (books : List Book) (genre : String) (fs : Bool) (mode : String)
          (b : Book) (p q : Bool),
        (b, p, q) ∈ practicalTruthTableSearch books genre fs mode →
          genreMatchB genre b = true) := by
  refine ⟨fun books genre fs => ?_, fun books genre fs => ?_,
    fun books genre fs => ?_, fun books genre fs mode b p q hmem => ?_⟩
  · rw [practicalTruthTableSearch_eq]
    congr 1
    apply List.filter_congr
    intro b _
    unfold pttsCond
    rw [show (("borrow" : String) == "borrow") = true from rfl,
      show (("borrow" : String) == "reference") = false from rfl]
    cases hB : isBorrowableB b <;> simp [hB]
  · rw [practicalTruthTableSearch_eq]
    congr 1
    apply List.filter_congr
    intro b _
    unfold pttsCond
    rw [show (("reference" : String) == "borrow") = false from rfl,
      show (("reference" : String) == "reference") = true from rfl]
    cases hR : isReferenceB b <;> simp [hR]
  · rw [practicalTruthTableSearch_eq]
    congr 1
    apply List.filter_congr
    intro b _
    unfold pttsCond
    rw [show (("any" : String) == "borrow") = false from rfl,
      show (("any" : String) == "reference") = false from rfl]
    simp
  · rw [practicalTruthTableSearch_eq] at hmem
    rcases List.mem_map.1 hmem with ⟨b', hb', heq⟩
    rw [Prod.mk.injEq] at heq
    obtain ⟨rfl, -⟩ := heq
    have h2 := (List.mem_filter.1 hb').2
    simp only [pttsCond, Bool.and_eq_true] at h2
    exact h2.1.1.1

/-- C3 witness: the genre-gate conjunct applied to the §8 filter example
record (genre Science, rating 4.2, year 2005, quantity 0), which the
`reference` search with `require_student_friendly` returns tagged
`is_borrowable=false, is_reference=true`. -/
theorem C3_witness : genreMatchB "Science" sciBook = true := by
  have hS : studentFriendlyB sciBook = true := by unfold studentFriendlyB sciBook; norm_num
  have hG : genreMatchB "Science" sciBook = true := by decide
  have hB : isBorrowableB sciBook = false := rfl
  have hR : isReferenceB sciBook = true := rfl
  apply C3_predicate_filter.2.2.2 [sciBook] "Science" true "reference" sciBook false true
  have hcond : pttsCond "Science" true "reference" sciBook = true := by
    unfold pttsCond
    rw [hG, hS, hB, hR,
      show (("reference" : String) == "borrow") = false from rfl,
      show (("reference" : String) == "reference") = true from rfl]
    rfl
  rw [practicalTruthTableSearch_eq]
  rw [show List.filter (pttsCond "Science" true "reference") [sciBook] = [sciBook] by
    simp [List.filter_cons, hcond]]
  simp [hB, hR]

/-- C7: `recursive_search_by_title` from index 0 is exactly the first
case-insensitive title match in collection order (`find?` on the
case-folded title); it returns `none` precisely when no title matches,
never fails on the empty collection, and on the two case variants
`"dune"`, `"DUNE"` the lookup of `"Dune"` returns the first record. -/
theorem C7_title_lookup :
    (∀ (books : List Book) (t : String),
        recursiveSearchByTitle books t 0 =
          books.find? (fun b => lowerStr b.title == lowerStr t)) ∧
      (∀ (books : List Book) (t : String),
        recursiveSearchByTitle books t 0 = none ↔
          ∀ b ∈ books, lowerStr b.title ≠ lowerStr t) ∧
      (∀ t : String, recursiveSearchByTitle [] t 0 = none) ∧
      recursiveSearchByTitle [duneA, duneB] "Dune" 0 = some duneA := by
  have h1 : ∀ (books : List Book) (t : String), recursiveSearchByTitle books t 0 =
      books.find? (fun b => lowerStr b.title == lowerStr t) := by
    intro books t
    have h0 := recursiveSearchByTitle_eq books t 0
    rwa [List.drop_zero] at h0
  refine ⟨h1, ?_, ?_, ?_⟩
  · intro books t
    rw [h1, List.find?_eq_none]
    simp
  · intro t
    rw [h1]
    rfl
  · rw [h1]
    exact List.find?_cons_of_pos _ (by decide)

/-- C10: for a record with the data model's `quantity ≥ 0`, a lend on an
unavailable record or one with zero quantity fails atomically (returns
`False` with quantity, availability and history unchanged); otherwise it
returns `True`, decrements the quantity by exactly one, recomputes
`availability` as `quantity > 0`, and appends exactly one history
entry. -/
theorem C10_lend (b : Book) (hq : 0 ≤ b.quantity) :
    ((b.availability = false ∨ b.quantity = 0) → lendExecute b = (false, b)) ∧
      (b.availability = true → b.quantity ≠ 0 →
        lendExecute b = (true,
          { b with
            quantity := b.quantity - 1,
            availability := decide (0 < b.quantity - 1),
            history := b.history ++ [("lend", "Book was lent out")] })) := by
  constructor
  · intro hfail
    have hc : lendCanPerform b = false := by
      unfold lendCanPerform
      rcases hfail with h | h
      · simp [h]
      · simp [h]
    unfold lendExecute
    simp [hc]
  · intro hav hqn
    have hc : lendCanPerform b = true := by
      unfold lendCanPerform
      rw [hav]
      simp only [Bool.true_and, decide_eq_true_eq]
      omega
    unfold lendExecute
    rw [if_pos hc]

/-- C10 witness: the failure branch on a record with no copies and the
success branch on a record with two copies. -/
theorem C10_witness :
    lendExecute emptyBook = (false, emptyBook) ∧
      lendExecute goodBook = (true,
        { goodBook with
          quantity := goodBook.quantity - 1,
          availability := decide (0 < goodBook.quantity - 1),
          history := goodBook.history ++ [("lend", "Book was lent out")] }) :=
  ⟨(C10_lend emptyBook (by norm_num [emptyBook])).1 (Or.inl rfl),
    (C10_lend goodBook (by norm_num [goodBook])).2 rfl (by norm_num [goodBook])⟩

/-- C7 witness: the none-iff-no-match conjunct applied to a concrete
one-record collection and a title that matches nothing. -/
theorem C7_witness : recursiveSearchByTitle [duneA] "Zebra" 0 = none :=
  (C7_title_lookup.2.1 [duneA] "Zebra").2 (by
    intro b hb
    rw [List.mem_singleton] at hb
    subst hb
    decide)

/-- C9 witness: the membership conjunct applied to a concrete singleton
collection. -/
theorem C9_witness : duneA ∈ ([duneA] : List Book) :=
  (C9_purity.1 [duneA]).2 duneA (List.mem_singleton.2 rfl)
